import Mathlib

/-!
Shallow embedding of the translucent HTTP record-and-replay proxy
(session engine, interaction store, canonical codec, matcher) and proofs
about it.  Definitions are translated from the Rust sources:
  src/matching/matcher.rs, src/session/manager.rs, src/session/models.rs,
  src/storage/models.rs, src/storage/memory.rs, src/storage/filesystem.rs,
  src/http/handlers.rs.
Modelling conventions:
  * header names and values are `String` (the round-trip claims assume
    valid UTF-8 header values, under which `HeaderValue::to_str` cannot
    fail, so the fallible Rust conversions become total here);
  * bodies are `List Nat` (byte sequences, each entry < 256 on the wire;
    no arithmetic is done on them);
  * a parsed URI is kept as its components; `Uri::to_string` followed by
    re-parsing in the http crate is the identity on a parsed URI, so the
    codec stores the components directly;
  * Rust `HashMap` values are modelled as association lists whose key
    order is first-insertion order; claims never depend on the iteration
    order of distinct keys;
  * lock acquisition (`Mutex`, `RwLock`) is modelled as always
    succeeding, matching the uncontended executions the claims quantify
    over.
-/

namespace Translucent

/-- ASCII lowercasing of one character, as applied by `to_lowercase` and
by `HeaderName` parsing to the ASCII-only header names of HTTP. -/
def asciiLowerChar (c : Char) : Char :=
  if 65 ≤ c.toNat ∧ c.toNat ≤ 90 then Char.ofNat (c.toNat + 32) else c

/-- ASCII lowercasing of a string. -/
def asciiLower (s : String) : String :=
  String.mk (s.data.map asciiLowerChar)

/-- Byte-prefix test, as `str::starts_with`. -/
def strStartsWith (s pre : String) : Bool :=
  pre.data.isPrefixOf s.data

/-- Components of a parsed URI as exposed by the http crate:
`scheme_str`, `authority`, `path`, `query`. -/
structure Uri where
  scheme : Option String
  authority : Option String
  path : String
  query : Option String
deriving Repr, DecidableEq

/-- A live (buffered) HTTP request: method, parsed URI, ordered header
list as iterated by `HeaderMap`, raw body bytes. -/
structure HttpRequest where
  method : String
  uri : Uri
  headers : List (String × String)
  body : List Nat
deriving Repr, DecidableEq

/-- A live (buffered) HTTP response. -/
structure HttpResponse where
  status : Nat
  headers : List (String × String)
  body : List Nat
deriving Repr, DecidableEq

/-- Serializable request form, from src/storage/models.rs `StoredRequest`.
The Rust `headers: HashMap<String, Vec<String>>` is an association list
here (first-insertion key order). -/
structure StoredRequest where
  method : String
  uri : Uri
  headers : List (String × List String)
  body : List Nat
deriving Repr, DecidableEq

/-- Serializable response form, from src/storage/models.rs `StoredResponse`. -/
structure StoredResponse where
  status : Nat
  headers : List (String × List String)
  body : List Nat
deriving Repr, DecidableEq

/-- Serializable interaction, from src/storage/models.rs `StoredInteraction`. -/
structure StoredInteraction where
  id : String
  timestamp : Nat
  request : StoredRequest
  response : StoredResponse
deriving Repr, DecidableEq

/-- One step of building the header `HashMap`:
`headers.entry(name).or_insert_with(Vec::new).push(value)`. -/
def insertHeaderValue (m : List (String × List String)) (name value : String) :
    List (String × List String) :=
  match m with
  | [] => [(name, [value])]
  | (n, vs) :: rest =>
    if n = name then (n, vs ++ [value]) :: rest
    else (n, vs) :: insertHeaderValue rest name value

/-- Group an ordered header list into the map form, in iteration order,
as the conversion loops in src/storage/models.rs do. -/
def groupHeaders (hs : List (String × String)) : List (String × List String) :=
  hs.foldl (fun m p => insertHeaderValue m p.1 p.2) []

/-- Convert a live request to its stored form
(src/storage/models.rs `request_to_stored`). -/
def request_to_stored (req : HttpRequest) : StoredRequest :=
  { method := req.method
  , uri := req.uri
  , headers := groupHeaders req.headers
  , body := req.body }

/-- Convert a live response to its stored form
(src/storage/models.rs `response_to_stored`). -/
def response_to_stored (resp : HttpResponse) : StoredResponse :=
  { status := resp.status
  , headers := groupHeaders resp.headers
  , body := resp.body }

/-- Flatten a stored header map back into an ordered header list.
`builder.header(name, value)` parses the name into a `HeaderName`,
which lowercases it. -/
def ungroupHeaders (m : List (String × List String)) : List (String × String) :=
  m.foldl (fun acc p => acc ++ p.2.map (fun v => (asciiLower p.1, v))) []

/-- Convert a stored request back to a live request
(src/storage/models.rs `stored_to_request`). -/
def stored_to_request (s : StoredRequest) : HttpRequest :=
  { method := s.method
  , uri := s.uri
  , headers := ungroupHeaders s.headers
  , body := s.body }

/-- Convert a stored response back to a live response
(src/storage/models.rs `stored_to_response`). -/
def stored_to_response (s : StoredResponse) : HttpResponse :=
  { status := s.status
  , headers := ungroupHeaders s.headers
  , body := s.body }

/-- Result of a match operation (src/matching/matcher.rs `MatchResult`). -/
inductive MatchResult where
  | Match (resp : HttpResponse)
  | NoMatch
deriving Repr, DecidableEq

/-- The matcher loop of src/matching/matcher.rs
`RequestMatcher::match_request`: walk the interactions in store order;
skip on method mismatch, skip on path mismatch, return the first hit. -/
def match_request (req : HttpRequest) :
    List (HttpRequest × HttpResponse) → MatchResult
  | [] => MatchResult.NoMatch
  | (storedReq, resp) :: rest =>
    if storedReq.method ≠ req.method then match_request req rest
    else if storedReq.uri.path ≠ req.uri.path then match_request req rest
    else MatchResult.Match resp

/-- The acceptance predicate the matcher applies to one stored request:
equal method and byte-for-byte equal URI path. -/
def request_matches (stored req : HttpRequest) : Bool :=
  stored.method == req.method && stored.uri.path == req.uri.path

/-- Session modes (src/session/models.rs `SessionMode`). -/
inductive SessionMode where
  | Record
  | Replay
  | Passthrough
deriving Repr, DecidableEq

/-- Dynamic pattern definition (src/session/models.rs `DynamicPattern`). -/
structure DynamicPattern where
  pattern : String
  generator : String
  params : List (String × String)
deriving Repr, DecidableEq

/-- Session configuration (src/session/models.rs `SessionConfig`). -/
structure SessionConfig where
  mode : SessionMode
  target_url : Option String
  dynamic_patterns : List DynamicPattern
deriving Repr, DecidableEq

/-- Generic association-list lookup, modelling `HashMap::get`. -/
def lookupAssoc {α : Type} (st : List (String × α)) (id : String) : Option α :=
  match st with
  | [] => none
  | (k, v) :: rest => if k = id then some v else lookupAssoc rest id

/-- Generic `entry(id).or_insert_with(Vec::new).push(x)` on the
association-list model of a `HashMap` of vectors. -/
def appendAssoc {α : Type} (st : List (String × List α)) (id : String) (x : α) :
    List (String × List α) :=
  match st with
  | [] => [(id, [x])]
  | (k, v) :: rest =>
    if k = id then (k, v ++ [x]) :: rest
    else (k, v) :: appendAssoc rest id x

/-- State of the in-memory backend (src/storage/memory.rs):
`HashMap<String, Vec<StoredInteraction>>` behind a mutex. -/
abbrev MemoryState := List (String × List StoredInteraction)

/-- MemoryStorage::store_interaction.  The UUID and the clock reading are
external inputs; the mutex acquisition is modelled as succeeding. -/
def store_interaction (st : MemoryState) (sess : String) (req : HttpRequest)
    (resp : HttpResponse) (freshId : String) (now : Nat) :
    Except String MemoryState :=
  let interaction : StoredInteraction :=
    { id := freshId
    , timestamp := now
    , request := request_to_stored req
    , response := response_to_stored resp }
  .ok (appendAssoc st sess interaction)

/-- MemoryStorage::get_interactions: absent key yields `Ok(vec![])`,
otherwise each stored interaction is converted back to live form. -/
def get_interactions (st : MemoryState) (sess : String) :
    Except String (List (HttpRequest × HttpResponse)) :=
  match lookupAssoc st sess with
  | none => .ok []
  | some ints =>
    .ok (ints.map (fun i => (stored_to_request i.request, stored_to_response i.response)))

/-- MemoryStorage::clear_interactions: remove the key. -/
def clear_interactions (st : MemoryState) (sess : String) : Except String MemoryState :=
  .ok (st.filter (fun p => p.1 ≠ sess))

/-- One entry of a session directory of the filesystem backend.  Files
written by the backend itself always re-parse, so json entries carry the
parsed interaction; entries with another extension stay uninterpreted. -/
inductive FsEntry where
  | jsonFile (name : String) (content : StoredInteraction)
  | otherFile (name : String)
deriving Repr, DecidableEq

/-- State of the filesystem backend (src/storage/filesystem.rs): the
session directories under the base path and their entries. -/
abbrev FsState := List (String × List FsEntry)

/-- FileSystemStorage::store_interaction: create the session directory if
absent and write `{uuid}.json` with the serialized interaction. -/
def fs_store_interaction (fs : FsState) (sess : String) (req : HttpRequest)
    (resp : HttpResponse) (freshId : String) (now : Nat) :
    Except String FsState :=
  let interaction : StoredInteraction :=
    { id := freshId
    , timestamp := now
    , request := request_to_stored req
    , response := response_to_stored resp }
  .ok (appendAssoc fs sess (FsEntry.jsonFile (freshId ++ ".json") interaction))

/-- FileSystemStorage::get_interactions: a missing session directory
yields `Ok(vec![])`; otherwise json entries are deserialized and
converted, entries with another extension are skipped. -/
def fs_get_interactions (fs : FsState) (sess : String) :
    Except String (List (HttpRequest × HttpResponse)) :=
  match lookupAssoc fs sess with
  | none => .ok []
  | some entries =>
    .ok (entries.filterMap (fun e =>
      match e with
      | FsEntry.jsonFile _ i =>
        some (stored_to_request i.request, stored_to_response i.response)
      | FsEntry.otherFile _ => none))

/-- Helper of src/session/manager.rs: `is_hop_by_hop_header`. -/
def is_hop_by_hop_header (header : String) : Bool :=
  asciiLower header == "connection" || asciiLower header == "keep-alive" ||
  asciiLower header == "proxy-authenticate" || asciiLower header == "proxy-authorization" ||
  asciiLower header == "te" || asciiLower header == "trailer" ||
  asciiLower header == "transfer-encoding" || asciiLower header == "upgrade"

/-- The outbound request handed to the upstream client. -/
structure ForwardedRequest where
  method : String
  url : String
  headers : List (String × String)
  body : List Nat
deriving Repr, DecidableEq

/-- Helper for `firstValuePerName`: skip pairs whose name was already
seen. -/
def firstValuePerNameAux (seen : List String) :
    List (String × String) → List (String × String)
  | [] => []
  | (n, v) :: rest =>
    if n ∈ seen then firstValuePerNameAux seen rest
    else (n, v) :: firstValuePerNameAux (n :: seen) rest

/-- Consuming iteration over a `HeaderMap` yields the name only with the
first value of each name; the response-building loop keeps exactly those
pairs.  This keeps the first value per name, in order. -/
def firstValuePerName (hs : List (String × String)) : List (String × String) :=
  firstValuePerNameAux [] hs

/-- Model of `HeaderMap::get`: the first value stored under the given
name; header name comparison is case-insensitive. -/
def headerGet (hs : List (String × String)) (name : String) : Option String :=
  match hs.find? (fun p => asciiLower p.1 == asciiLower name) with
  | some p => some p.2
  | none => none

/-- UTF-8 bytes of a string, for literal response bodies. -/
def strToBytes (s : String) : List Nat :=
  s.toUTF8.toList.map (fun b => b.toNat)

/-- Session::handle_http_request (src/session/manager.rs).  The network
send is external, so the upstream response is a parameter, as are the
fresh UUID and the clock reading used by the store.  Returns the client
response, the updated store state and the forwarded outbound request. -/
def handle_http_request (sess : String) (st : MemoryState) (req : HttpRequest)
    (targetUrl : String) (saveInteraction : Bool) (upstream : HttpResponse)
    (freshId : String) (now : Nat) :
    Except String (HttpResponse × MemoryState × ForwardedRequest) :=
  let queryStr := match req.uri.query with
    | some q => "?" ++ q
    | none => ""
  let forwardUrl := targetUrl ++ req.uri.path ++ queryStr
  let fwdHeaders := req.headers.filter
    (fun p => !(strStartsWith p.1 "x-session") && !(is_hop_by_hop_header p.1))
  let fwd : ForwardedRequest :=
    { method := req.method, url := forwardUrl, headers := fwdHeaders, body := req.body }
  let afterSave : Except String MemoryState :=
    if saveInteraction then
      -- the request is rebuilt from method, uri and body only, and the
      -- response from status and body only: the builders carry no headers
      store_interaction st sess
        { method := req.method, uri := req.uri, headers := [], body := req.body }
        { status := upstream.status, headers := [], body := upstream.body }
        freshId now
    else
      .ok st
  match afterSave with
  | .error e => .error ("Failed to store interaction: " ++ e)
  | .ok st2 =>
    let clientHeaders := (firstValuePerName upstream.headers).filter
      (fun p => !(is_hop_by_hop_header p.1))
    .ok ({ status := upstream.status, headers := clientHeaders, body := upstream.body }, st2, fwd)

/-- Session::extract_target_url (src/session/manager.rs).  The source
checks the X-Proxy-Target header, acquires the config lock without
consulting `target_url`, then tries the Host header and the authority of
the incoming URI. -/
def extract_target_url (req : HttpRequest) (config : SessionConfig) : Option String :=
  match headerGet req.headers "X-Proxy-Target" with
  | some target => some target
  | none =>
    -- the session config is read here by the source, but none of its
    -- fields are used before the next step
    match headerGet req.headers "Host" with
    | some host => some ((req.uri.scheme.getD "http") ++ "://" ++ host)
    | none =>
      match req.uri.authority with
      | some auth => some ((req.uri.scheme.getD "http") ++ "://" ++ auth)
      | none => none

/-- Session::record_request: resolve the target, then forward with
`save_interaction = true`. -/
def record_request (sess : String) (st : MemoryState) (req : HttpRequest)
    (config : SessionConfig) (upstream : HttpResponse) (freshId : String)
    (now : Nat) :
    Except String (HttpResponse × MemoryState × List ForwardedRequest) :=
  match extract_target_url req config with
  | none => .error "No target URL available for request"
  | some targetUrl =>
    match handle_http_request sess st req targetUrl true upstream freshId now with
    | .error e => .error e
    | .ok (resp, st2, fwd) => .ok (resp, st2, [fwd])

/-- Session::passthrough_request: resolve the target, then forward with
`save_interaction = false`. -/
def passthrough_request (sess : String) (st : MemoryState) (req : HttpRequest)
    (config : SessionConfig) (upstream : HttpResponse) (freshId : String)
    (now : Nat) :
    Except String (HttpResponse × MemoryState × List ForwardedRequest) :=
  match extract_target_url req config with
  | none => .error "No target URL available for request"
  | some targetUrl =>
    match handle_http_request sess st req targetUrl false upstream freshId now with
    | .error e => .error e
    | .ok (resp, st2, fwd) => .ok (resp, st2, [fwd])

/-- Session::replay_request: rebuild the request from method, uri and
buffered body, invoke the matcher over the session interactions, return
the matched response or a 404.  No forward call is made. -/
def replay_request (sess : String) (st : MemoryState) (req : HttpRequest) :
    Except String (HttpResponse × MemoryState × List ForwardedRequest) :=
  let reqWithBytes : HttpRequest :=
    { method := req.method, uri := req.uri, headers := [], body := req.body }
  match get_interactions st sess with
  | .error e => .error ("Failed to match request: Failed to get interactions: " ++ e)
  | .ok ints =>
    match match_request reqWithBytes ints with
    | MatchResult.Match resp => .ok (resp, st, [])
    | MatchResult.NoMatch =>
      .ok ({ status := 404, headers := []
           , body := strToBytes "No matching interaction found" }, st, [])

/-- Mode dispatch of src/session/manager.rs `Session::process_request`.
The source match lists arms for `Record` and `Replay` only; the
`Passthrough` variant of src/session/models.rs `SessionMode` has no arm
there, which this embedding records as `none`. -/
def process_request (config : SessionConfig) (sess : String) (st : MemoryState)
    (req : HttpRequest) (upstream : HttpResponse) (freshId : String) (now : Nat) :
    Option (Except String (HttpResponse × MemoryState × List ForwardedRequest)) :=
  match config.mode with
  | SessionMode.Record => some (record_request sess st req config upstream freshId now)
  | SessionMode.Replay => some (replay_request sess st req)
  | SessionMode.Passthrough => none

/-- The session registry keys (src/session/manager.rs `SessionManager`,
`sessions: RwLock<HashMap<SessionId, Arc<Session>>>`). -/
abbrev Registry := List String

/-- SessionManager::delete_session on the registry map. -/
def delete_session (sessions : Registry) (id : String) : Except String Registry :=
  if sessions.contains id then
    .ok (sessions.filter (fun s => s ≠ id))
  else
    .error ("Session " ++ id ++ " not found")

/-- SessionManager::delete_session acting on the whole manager state:
the body only mutates the registry map, the shared storage backend is
not touched. -/
def delete_session_full (sessions : Registry) (st : MemoryState) (id : String) :
    Except String (Registry × MemoryState) :=
  match delete_session sessions id with
  | .ok sessions2 => .ok (sessions2, st)
  | .error e => .error e

/-- Session id resolution (src/http/handlers.rs `extract_session_id`):
X-Session-Id header, then the `?session=` query parameter, then the
literal default. -/
def extract_session_id (headers : List (String × String)) (query : Option String) :
    String :=
  match headerGet headers "X-Session-Id" with
  | some sessionId => sessionId
  | none =>
    match query with
    | some session => session
    | none => "default"

/-- The eight hop-by-hop header names of RFC 7230 §6.1 as listed by the
source and the spec. -/
def hopByHopNames : List String :=
  ["connection", "keep-alive", "proxy-authenticate", "proxy-authorization",
   "te", "trailer", "transfer-encoding", "upgrade"]

/-- Ordered list of the values carried under one header name. -/
def headerValues (name : String) (hs : List (String × String)) : List String :=
  (hs.filter (fun p => p.1 == name)).map Prod.snd

/-- Values stored under one key of a grouped header map. -/
def groupedValues (name : String) (m : List (String × List String)) : List String :=
  match lookupAssoc m name with
  | none => []
  | some vs => vs

/-- One store call against a backend, with its external inputs. -/
structure StoreOp where
  sess : String
  req : HttpRequest
  resp : HttpResponse
  freshId : String
  now : Nat

/-- Run a sequence of store calls against the memory backend. -/
def applyMemOps : List StoreOp → MemoryState → MemoryState
  | [], st => st
  | op :: rest, st =>
    match store_interaction st op.sess op.req op.resp op.freshId op.now with
    | .ok st2 => applyMemOps rest st2
    | .error _ => applyMemOps rest st

/-- Run a sequence of store calls against the filesystem backend. -/
def applyFsOps : List StoreOp → FsState → FsState
  | [], fs => fs
  | op :: rest, fs =>
    match fs_store_interaction fs op.sess op.req op.resp op.freshId op.now with
    | .ok fs2 => applyFsOps rest fs2
    | .error _ => applyFsOps rest fs

/-- A relative URI `/a` with no scheme, authority or query. -/
def sampleUri : Uri :=
  { scheme := none, authority := none, path := "/a", query := none }

/-- A GET request for `/a` carrying no headers and no body. -/
def sampleReq : HttpRequest :=
  { method := "GET", uri := sampleUri, headers := [], body := [] }

/-- A session config with a configured target URL. -/
def cfgWithTarget : SessionConfig :=
  { mode := SessionMode.Record
  , target_url := some "http://cfg.example"
  , dynamic_patterns := [] }

/-- A GET request for `/a` whose only routing header is Host. -/
def reqWithHost : HttpRequest :=
  { method := "GET"
  , uri := sampleUri
  , headers := [("host", "origin.test")]
  , body := [] }

/-- A request carrying a Host header and a content-type header. -/
def c6Req : HttpRequest :=
  { method := "GET"
  , uri := sampleUri
  , headers := [("host", "origin.test"), ("content-type", "application/json")]
  , body := [123, 125] }

/-- An upstream response carrying a content-type header. -/
def c6Upstream : HttpResponse :=
  { status := 200
  , headers := [("content-type", "text/plain")]
  , body := [111, 107] }

/-- A request carrying a session header, a hop-by-hop header and a plain
header, all in wire-normalized (lowercase) name form. -/
def c3Req : HttpRequest :=
  { method := "GET"
  , uri := sampleUri
  , headers := [("x-session-id", "abc"), ("connection", "close"), ("accept", "text")]
  , body := [] }

/-- An upstream response with no headers and an empty body. -/
def plainUpstream : HttpResponse :=
  { status := 200, headers := [], body := [] }

/-- A concrete stored interaction for the deletion scenario. -/
def c7Interaction : StoredInteraction :=
  { id := "i1"
  , timestamp := 0
  , request := request_to_stored sampleReq
  , response := response_to_stored plainUpstream }

/-- A memory backend state holding one interaction for session s1. -/
def c7State : MemoryState := [("s1", [c7Interaction])]

/-- A request with a repeated header name, for the round-trip witness. -/
def c8Req : HttpRequest :=
  { method := "GET"
  , uri := sampleUri
  , headers := [("accept", "a"), ("x-k", "1"), ("accept", "b")]
  , body := [1, 2] }

/-- A response with a repeated header name, for the round-trip witness. -/
def c8Resp : HttpResponse :=
  { status := 201
  , headers := [("set-cookie", "x"), ("set-cookie", "y")]
  , body := [3] }

/-- C1: the matcher iterates the stored interactions in store order and
returns the response of the first whose stored request has an equal
method and a byte-for-byte equal URI path, ignoring query, headers and
body of the incoming request; with no such interaction it returns
NoMatch. -/
theorem match_request_first_match (req : HttpRequest)
    (ints : List (HttpRequest × HttpResponse)) :
    (match_request req ints =
      match ints.find? (fun p => request_matches p.1 req) with
      | some p => MatchResult.Match p.2
      | none => MatchResult.NoMatch) ∧
    (∀ q hs b, match_request
        { req with uri := { req.uri with query := q }, headers := hs, body := b }
        ints = match_request req ints) := by
  constructor
  · induction ints with
    | nil => rfl
    | cons hd tl ih =>
      obtain ⟨storedReq, resp⟩ := hd
      by_cases hm : storedReq.method = req.method
      · by_cases hp : storedReq.uri.path = req.uri.path
        · simp [match_request, hm, hp, List.find?, request_matches]
        · have hp' : (storedReq.uri.path == req.uri.path) = false := by
            simp [hp]
          simpa [match_request, hm, hp, List.find?, request_matches, hp']
            using ih
      · have hm' : (storedReq.method == req.method) = false := by
          simp [hm]
        simpa [match_request, hm, List.find?, request_matches, hm'] using ih
  · intro q hs b
    induction ints with
    | nil => rfl
    | cons hd tl ih =>
      obtain ⟨storedReq, resp⟩ := hd
      simp only [match_request]
      by_cases hm : storedReq.method = req.method
      · by_cases hp : storedReq.uri.path = req.uri.path
        · simp [hm, hp]
        · simp [hm, hp, ih]
      · simp [hm, ih]

/-- C2: with the session in Replay mode the dispatch runs the replay
path, which makes no forward call; on a matcher hit it returns the
matched stored response unchanged, on a miss it returns HTTP 404 with
the exact body. -/
theorem replay_never_forwards (config : SessionConfig) (sess : String)
    (st : MemoryState) (req : HttpRequest) (upstream : HttpResponse)
    (freshId : String) (now : Nat)
    (hmode : config.mode = SessionMode.Replay) :
    process_request config sess st req upstream freshId now =
      some (replay_request sess st req) ∧
    (∀ resp st2 fwds,
      replay_request sess st req = Except.ok (resp, st2, fwds) → fwds = []) ∧
    (∀ ints, get_interactions st sess = Except.ok ints →
      (∀ resp,
        match_request
          { method := req.method, uri := req.uri, headers := [], body := req.body }
          ints = MatchResult.Match resp →
        replay_request sess st req = Except.ok (resp, st, [])) ∧
      (match_request
          { method := req.method, uri := req.uri, headers := [], body := req.body }
          ints = MatchResult.NoMatch →
        replay_request sess st req = Except.ok
          ({ status := 404, headers := []
           , body := strToBytes "No matching interaction found" }, st, []))) := by
  refine ⟨by simp [process_request, hmode], ?_, ?_⟩
  · intro resp st2 fwds h
    cases hga : get_interactions st sess with
    | error e =>
      simp only [replay_request, hga] at h
      exact absurd h (by simp)
    | ok ints =>
      simp only [replay_request, hga] at h
      cases hmr : match_request
          { method := req.method, uri := req.uri, headers := [], body := req.body }
          ints with
      | Match r => rw [hmr] at h; simp at h; exact h.2.2
      | NoMatch => rw [hmr] at h; simp at h; exact h.2.2
  · intro ints hga
    constructor
    · intro resp hmr
      simp only [replay_request, hga, hmr]
    · intro hmr
      simp only [replay_request, hga, hmr]

/-- Witness for C2 at a concrete empty store: the miss branch returns
the fixed 404 response. -/
theorem replay_never_forwards_witness :
    ({ mode := SessionMode.Replay, target_url := none, dynamic_patterns := [] }
        : SessionConfig).mode = SessionMode.Replay ∧
    replay_request "s" ([] : MemoryState) sampleReq = Except.ok
      ({ status := 404, headers := []
       , body := strToBytes "No matching interaction found" }, [], []) :=
  ⟨rfl,
   ((replay_never_forwards
      { mode := SessionMode.Replay, target_url := none, dynamic_patterns := [] }
      "s" [] sampleReq plainUpstream "id" 0 rfl).2.2 [] rfl).2 rfl⟩

/-- C9: session id resolution takes the X-Session-Id header value when
present, otherwise the session query parameter when present, otherwise
the literal default. -/
theorem session_id_precedence (headers : List (String × String))
    (query : Option String) :
    (∀ v, headerGet headers "X-Session-Id" = some v →
      extract_session_id headers query = v) ∧
    (headerGet headers "X-Session-Id" = none →
      (∀ s, query = some s → extract_session_id headers query = s) ∧
      (query = none → extract_session_id headers query = "default")) := by
  constructor
  · intro v hv
    unfold extract_session_id
    rw [hv]
  · intro hn
    constructor
    · intro s hs
      unfold extract_session_id
      rw [hn, hs]
    · intro hq
      unfold extract_session_id
      rw [hn, hq]

/-- Witness for C9: the header wins over a query parameter. -/
theorem session_id_precedence_witness :
    headerGet [("x-session-id", "h1")] "X-Session-Id" = some "h1" ∧
    extract_session_id [("x-session-id", "h1")] (some "q1") = "h1" :=
  ⟨by decide,
   (session_id_precedence [("x-session-id", "h1")] (some "q1")).1 "h1" (by decide)⟩

/-- Lookups are unchanged by appends under a different key. -/
theorem lookupAssoc_appendAssoc_ne {α : Type} (st : List (String × List α))
    (k id : String) (x : α) (hne : k ≠ id) :
    lookupAssoc (appendAssoc st k x) id = lookupAssoc st id := by
  induction st with
  | nil => simp [appendAssoc, lookupAssoc, hne]
  | cons hd tl ih =>
    obtain ⟨k2, v2⟩ := hd
    by_cases hk : k2 = k
    · subst hk
      simp [appendAssoc, lookupAssoc, hne]
    · simp [appendAssoc, lookupAssoc, hk, ih]

/-- A key never stored to stays absent from the memory backend map. -/
theorem applyMemOps_lookup_none (id : String) :
    ∀ (ops : List StoreOp) (st : MemoryState),
    (∀ op ∈ ops, op.sess ≠ id) → lookupAssoc st id = none →
    lookupAssoc (applyMemOps ops st) id = none := by
  intro ops
  induction ops with
  | nil => intro st _ h0; simpa [applyMemOps] using h0
  | cons op rest ih =>
    intro st h h0
    have hop : op.sess ≠ id := h op (List.mem_cons_self op rest)
    have hrest : ∀ op2 ∈ rest, op2.sess ≠ id := by
      intro op2 hm
      exact h op2 (List.mem_cons_of_mem op hm)
    simp only [applyMemOps, store_interaction]
    exact ih _ hrest (by rw [lookupAssoc_appendAssoc_ne st op.sess id _ hop]; exact h0)

/-- A key never stored to stays absent from the filesystem backend map. -/
theorem applyFsOps_lookup_none (id : String) :
    ∀ (ops : List StoreOp) (fs : FsState),
    (∀ op ∈ ops, op.sess ≠ id) → lookupAssoc fs id = none →
    lookupAssoc (applyFsOps ops fs) id = none := by
  intro ops
  induction ops with
  | nil => intro fs _ h0; simpa [applyFsOps] using h0
  | cons op rest ih =>
    intro fs h h0
    have hop : op.sess ≠ id := h op (List.mem_cons_self op rest)
    have hrest : ∀ op2 ∈ rest, op2.sess ≠ id := by
      intro op2 hm
      exact h op2 (List.mem_cons_of_mem op hm)
    simp only [applyFsOps, fs_store_interaction]
    exact ih _ hrest (by rw [lookupAssoc_appendAssoc_ne fs op.sess id _ hop]; exact h0)

/-- C10: for a session id to which no interaction has ever been stored,
get_interactions returns Ok with an empty list, on both the in-memory
and the filesystem backend. -/
theorem get_interactions_unknown_session (id : String) (ops : List StoreOp)
    (h : ∀ op ∈ ops, op.sess ≠ id) :
    get_interactions (applyMemOps ops []) id = Except.ok [] ∧
    fs_get_interactions (applyFsOps ops []) id = Except.ok [] := by
  constructor
  · unfold get_interactions
    rw [applyMemOps_lookup_none id ops [] h rfl]
  · unfold fs_get_interactions
    rw [applyFsOps_lookup_none id ops [] h rfl]

/-- Witness for C10: one store to a different session id, then a lookup
of the untouched id. -/
theorem get_interactions_unknown_session_witness :
    (∀ op ∈ [({ sess := "other", req := sampleReq, resp := plainUpstream
              , freshId := "i9", now := 3 } : StoreOp)], op.sess ≠ "s") ∧
    (get_interactions
      (applyMemOps
        [{ sess := "other", req := sampleReq, resp := plainUpstream
         , freshId := "i9", now := 3 }] []) "s" = Except.ok [] ∧
     fs_get_interactions
      (applyFsOps
        [{ sess := "other", req := sampleReq, resp := plainUpstream
         , freshId := "i9", now := 3 }] []) "s" = Except.ok []) :=
  ⟨by decide,
   get_interactions_unknown_session "s"
     [{ sess := "other", req := sampleReq, resp := plainUpstream
      , freshId := "i9", now := 3 }] (by decide)⟩

/-- The hop-by-hop check is membership of the lowercased name in the
fixed list. -/
theorem is_hop_by_hop_header_iff (h : String) :
    is_hop_by_hop_header h = true ↔ asciiLower h ∈ hopByHopNames := by
  simp only [is_hop_by_hop_header, hopByHopNames, Bool.or_eq_true, beq_iff_eq,
    List.mem_cons, List.not_mem_nil, or_false]
  tauto

/-- The whole forward path keeps exactly the headers passing the
sanitization predicate. -/
theorem handle_http_request_fwd (sess : String) (st : MemoryState)
    (req : HttpRequest) (targetUrl : String) (save : Bool)
    (upstream : HttpResponse) (freshId : String) (now : Nat) :
    ∃ resp st2,
      handle_http_request sess st req targetUrl save upstream freshId now =
        Except.ok (resp, st2,
          { method := req.method
          , url := targetUrl ++ req.uri.path ++
              (match req.uri.query with
               | some q => "?" ++ q
               | none => "")
          , headers := req.headers.filter
              (fun p => !(strStartsWith p.1 "x-session") && !(is_hop_by_hop_header p.1))
          , body := req.body }) := by
  cases save <;> exact ⟨_, _, rfl⟩

/-- C3: the forwarded outbound request carries no header whose
lowercased name begins with x-session and none of the hop-by-hop header
names, and every other incoming header is copied into it. -/
theorem forward_strips_headers (sess : String) (st : MemoryState)
    (req : HttpRequest) (targetUrl : String) (save : Bool)
    (upstream : HttpResponse) (freshId : String) (now : Nat)
    (hlower : ∀ p ∈ req.headers, asciiLower p.1 = p.1) :
    ∀ resp st2 fwd,
      handle_http_request sess st req targetUrl save upstream freshId now =
        Except.ok (resp, st2, fwd) →
      (∀ p ∈ fwd.headers,
        strStartsWith (asciiLower p.1) "x-session" = false ∧
        asciiLower p.1 ∉ hopByHopNames) ∧
      (∀ p ∈ req.headers,
        strStartsWith (asciiLower p.1) "x-session" = false →
        asciiLower p.1 ∉ hopByHopNames → p ∈ fwd.headers) := by
  intro resp st2 fwd h
  obtain ⟨r2, s2, heq⟩ :=
    handle_http_request_fwd sess st req targetUrl save upstream freshId now
  rw [heq] at h
  simp only [Except.ok.injEq, Prod.mk.injEq] at h
  obtain ⟨-, -, hfwd⟩ := h
  subst hfwd
  constructor
  · intro p hp
    simp only [List.mem_filter, Bool.and_eq_true, Bool.not_eq_true'] at hp
    obtain ⟨hmem, hstart, hhop⟩ := hp
    rw [hlower p hmem]
    refine ⟨hstart, ?_⟩
    intro hmemhop
    have : is_hop_by_hop_header p.1 = true := by
      rw [is_hop_by_hop_header_iff]
      rw [hlower p hmem]
      exact hmemhop
    rw [this] at hhop
    exact absurd hhop (by simp)
  · intro p hmem hstart hhop
    simp only [List.mem_filter, Bool.and_eq_true, Bool.not_eq_true']
    refine ⟨hmem, ?_, ?_⟩
    · rw [hlower p hmem] at hstart
      exact hstart
    · by_cases hb : is_hop_by_hop_header p.1 = true
      · exfalso
        rw [is_hop_by_hop_header_iff, hlower p hmem] at hb
        rw [hlower p hmem] at hhop
        exact hhop hb
      · simpa using hb

/-- Witness for C3 at a request carrying a session header, a hop-by-hop
header and a plain header. -/
theorem forward_strips_headers_witness :
    (∀ p ∈ c3Req.headers, asciiLower p.1 = p.1) ∧
    (∀ resp st2 fwd,
      handle_http_request "s" [] c3Req "http://t" false plainUpstream "id" 0 =
        Except.ok (resp, st2, fwd) →
      (∀ p ∈ fwd.headers,
        strStartsWith (asciiLower p.1) "x-session" = false ∧
        asciiLower p.1 ∉ hopByHopNames) ∧
      (∀ p ∈ c3Req.headers,
        strStartsWith (asciiLower p.1) "x-session" = false →
        asciiLower p.1 ∉ hopByHopNames → p ∈ fwd.headers)) :=
  ⟨by decide,
   forward_strips_headers "s" [] c3Req "http://t" false plainUpstream "id" 0
     (by decide)⟩

/-- C4 (code divergence): target resolution never consults the session
config, so with a configured target_url and no header or URI source the
resolution yields nothing instead of the configured target. -/
theorem extract_target_url_ignores_config :
    (∀ req c1 c2, extract_target_url req c1 = extract_target_url req c2) ∧
    cfgWithTarget.target_url = some "http://cfg.example" ∧
    extract_target_url sampleReq cfgWithTarget = none := by
  refine ⟨?_, rfl, rfl⟩
  intro req c1 c2
  rfl

/-- C5 (code divergence): the mode dispatch of process_request has no
arm for Passthrough, so no Passthrough request is processed at all,
although the passthrough path itself forwards without storing. -/
theorem passthrough_not_dispatched :
    (∀ target dps sess st req upstream freshId now,
      process_request
        { mode := SessionMode.Passthrough, target_url := target
        , dynamic_patterns := dps } sess st req upstream freshId now = none) ∧
    passthrough_request "s" [] reqWithHost cfgWithTarget plainUpstream "id" 0 =
      Except.ok
        ({ status := 200, headers := [], body := [] }, ([] : MemoryState),
         [{ method := "GET", url := "http://origin.test/a"
          , headers := [("host", "origin.test")], body := [] }]) := by
  constructor
  · intro target dps sess st req upstream freshId now
    rfl
  · rfl

/-- C6 (code divergence): the Record path rebuilds the request and the
response for storage from method, uri, status and body only, so the
stored interaction carries empty header maps although both original
messages carry headers. -/
theorem record_capture_drops_headers :
    record_request "s" [] c6Req cfgWithTarget c6Upstream "id1" 5 =
      Except.ok
        ({ status := 200, headers := [("content-type", "text/plain")]
         , body := [111, 107] },
         [("s",
           [{ id := "id1", timestamp := 5
            , request := { method := "GET", uri := sampleUri, headers := []
                         , body := [123, 125] }
            , response := { status := 200, headers := [], body := [111, 107] } }])],
         [{ method := "GET", url := "http://origin.test/a"
          , headers := [("host", "origin.test"), ("content-type", "application/json")]
          , body := [123, 125] }]) ∧
    c6Req.headers ≠ [] ∧ c6Upstream.headers ≠ [] := by
  refine ⟨rfl, by decide, by decide⟩

/-- C7 counterexample: a delete of session s1 succeeds, yet the memory
backend still lists the interaction stored for s1. -/
theorem delete_then_list_nonempty :
    delete_session_full ["s1"] c7State "s1" = Except.ok ([], c7State) ∧
    get_interactions c7State "s1" ≠ Except.ok [] := by
  constructor
  · rfl
  · intro h
    simp [get_interactions, c7State, lookupAssoc] at h

/-- Lookup of a key after filtering that key out yields none. -/
theorem lookupAssoc_filter_self {α : Type} (st : List (String × α)) (id : String) :
    lookupAssoc (st.filter (fun p => p.1 ≠ id)) id = none := by
  induction st with
  | nil => rfl
  | cons hd tl ih =>
    obtain ⟨k, v⟩ := hd
    by_cases hk : k = id
    · simpa [List.filter_cons, hk] using ih
    · simpa [List.filter_cons, hk, lookupAssoc] using ih

/-- C7 amended: delete removes the session from the registry and leaves
the shared memory backend untouched, so listing still returns the
interactions stored before the delete; only clear_interactions makes
the listing empty. -/
theorem delete_leaves_memory_interactions (sessions : Registry)
    (st : MemoryState) (id : String) (h : sessions.contains id = true) :
    delete_session_full sessions st id =
      Except.ok (sessions.filter (fun s => s ≠ id), st) ∧
    (∀ st2, clear_interactions st id = Except.ok st2 →
      get_interactions st2 id = Except.ok []) := by
  constructor
  · unfold delete_session_full delete_session
    rw [if_pos h]
  · intro st2 hcl
    simp only [clear_interactions, Except.ok.injEq] at hcl
    subst hcl
    unfold get_interactions
    rw [lookupAssoc_filter_self]

/-- Witness for C7 amended at the one-session, one-interaction state. -/
theorem delete_leaves_memory_interactions_witness :
    (["s1"].contains "s1" = true) ∧
    (delete_session_full ["s1"] c7State "s1" =
       Except.ok (["s1"].filter (fun s => s ≠ "s1"), c7State) ∧
     (∀ st2, clear_interactions c7State "s1" = Except.ok st2 →
       get_interactions st2 "s1" = Except.ok [])) :=
  ⟨by decide, delete_leaves_memory_interactions ["s1"] c7State "s1" (by decide)⟩

/-- Values stored under one key of a map with one more entry in front. -/
theorem groupedValues_cons (name k : String) (vs : List String)
    (tl : List (String × List String)) :
    groupedValues name ((k, vs) :: tl) =
      if k = name then vs else groupedValues name tl := by
  by_cases h : k = name <;> simp [groupedValues, lookupAssoc, h]

/-- Values under one key after one insertion step. -/
theorem groupedValues_insert (m : List (String × List String)) (name n v : String) :
    groupedValues name (insertHeaderValue m n v) =
      groupedValues name m ++ (if name = n then [v] else []) := by
  induction m with
  | nil =>
    by_cases h : name = n
    · simp [insertHeaderValue, groupedValues, lookupAssoc, h]
    · simp [insertHeaderValue, groupedValues, lookupAssoc, h, Ne.symm h]
  | cons hd tl ih =>
    obtain ⟨k, vs⟩ := hd
    by_cases hk : k = n
    · subst hk
      by_cases hn : k = name
      · simp [insertHeaderValue, groupedValues_cons, hn]
      · have hn2 : ¬ name = k := fun hc => hn hc.symm
        simp [insertHeaderValue, groupedValues_cons, hn, hn2]
    · by_cases hn : k = name
      · have h1 : ¬ name = n := fun hc => hk (hn.trans hc)
        simp [insertHeaderValue, hk, groupedValues_cons, hn, h1]
      · simp [insertHeaderValue, hk, groupedValues_cons, hn, ih]

/-- Values under one name after prepending one pair. -/
theorem headerValues_cons (name : String) (p : String × String)
    (hs : List (String × String)) :
    headerValues name (p :: hs) =
      (if p.1 = name then [p.2] else []) ++ headerValues name hs := by
  by_cases h : p.1 = name <;> simp [headerValues, List.filter_cons, h]

/-- Grouping a header list accumulates, per name, exactly the ordered
values carried under that name. -/
theorem groupedValues_foldl (hs : List (String × String)) :
    ∀ (m : List (String × List String)) (name : String),
    groupedValues name (hs.foldl (fun m2 p => insertHeaderValue m2 p.1 p.2) m) =
      groupedValues name m ++ headerValues name hs := by
  induction hs with
  | nil =>
    intro m name
    simp [headerValues]
  | cons p rest ih =>
    intro m name
    simp only [List.foldl_cons]
    rw [ih, groupedValues_insert, headerValues_cons, List.append_assoc]
    by_cases h : name = p.1
    · simp [h]
    · simp [h, Ne.symm h]

/-- Keys after one insertion step. -/
theorem insertHeaderValue_keys (m : List (String × List String)) (n v : String) :
    (insertHeaderValue m n v).map Prod.fst =
      if n ∈ m.map Prod.fst then m.map Prod.fst else m.map Prod.fst ++ [n] := by
  induction m with
  | nil => simp [insertHeaderValue]
  | cons hd tl ih =>
    obtain ⟨k, vs⟩ := hd
    by_cases hk : k = n
    · subst hk
      simp [insertHeaderValue]
    · simp only [insertHeaderValue, if_neg hk, List.map_cons, ih, List.mem_cons]
      by_cases h2 : n ∈ tl.map Prod.fst
      · simp [h2, Ne.symm hk]
      · simp [h2, Ne.symm hk]

/-- Grouping keeps the key list duplicate-free. -/
theorem foldl_insert_keys_nodup (hs : List (String × String)) :
    ∀ m : List (String × List String), (m.map Prod.fst).Nodup →
    ((hs.foldl (fun m2 p => insertHeaderValue m2 p.1 p.2) m).map Prod.fst).Nodup := by
  induction hs with
  | nil =>
    intro m hm
    simpa using hm
  | cons p rest ih =>
    intro m hm
    simp only [List.foldl_cons]
    apply ih
    rw [insertHeaderValue_keys]
    by_cases h : p.1 ∈ m.map Prod.fst
    · simpa [h] using hm
    · rw [if_neg h]
      simp [List.nodup_append, hm, h]

/-- Every key of the grouped map comes from the accumulator or from the
header list. -/
theorem foldl_insert_keys_mem (hs : List (String × String)) :
    ∀ (m : List (String × List String)) (k : String),
    k ∈ (hs.foldl (fun m2 p => insertHeaderValue m2 p.1 p.2) m).map Prod.fst →
    k ∈ m.map Prod.fst ∨ k ∈ hs.map Prod.fst := by
  induction hs with
  | nil =>
    intro m k h
    exact Or.inl (by simpa using h)
  | cons p rest ih =>
    intro m k h
    simp only [List.foldl_cons] at h
    rcases ih (insertHeaderValue m p.1 p.2) k h with h2 | h2
    · rw [insertHeaderValue_keys] at h2
      by_cases hc : p.1 ∈ m.map Prod.fst
      · rw [if_pos hc] at h2
        exact Or.inl h2
      · rw [if_neg hc] at h2
        rcases List.mem_append.mp h2 with h3 | h3
        · exact Or.inl h3
        · simp only [List.mem_singleton] at h3
          subst h3
          exact Or.inr (by simp)
    · exact Or.inr (by simp [h2])

/-- A left fold that appends blocks equals the accumulator followed by
the joined blocks. -/
theorem foldl_append_join {α β : Type} (f : α → List β) (l : List α) :
    ∀ acc : List β,
    l.foldl (fun a x => a ++ f x) acc = acc ++ (l.map f).flatten := by
  induction l with
  | nil =>
    intro acc
    simp
  | cons x rest ih =>
    intro acc
    simp [ih, List.append_assoc]

/-- Ungrouping one entry prepends its block. -/
theorem ungroupHeaders_cons (k : String) (vs : List String)
    (tl : List (String × List String)) :
    ungroupHeaders ((k, vs) :: tl) =
      vs.map (fun v => (asciiLower k, v)) ++ ungroupHeaders tl := by
  unfold ungroupHeaders
  simp only [List.foldl_cons]
  rw [foldl_append_join, foldl_append_join]
  simp

/-- Per-name values distribute over appending header lists. -/
theorem headerValues_append (name : String) (l1 l2 : List (String × String)) :
    headerValues name (l1 ++ l2) = headerValues name l1 ++ headerValues name l2 := by
  simp [headerValues, List.filter_append]

/-- Per-name values of a one-key block. -/
theorem headerValues_block (name k : String) (vs : List String) :
    headerValues name (vs.map (fun v => (k, v))) =
      if k = name then vs else [] := by
  induction vs with
  | nil => by_cases h : k = name <;> simp [headerValues, h]
  | cons v rest ih =>
    simp only [List.map_cons]
    rw [headerValues_cons, ih]
    by_cases h : k = name
    · simp [h]
    · simp [h]

/-- A name absent from the keys contributes no ungrouped values. -/
theorem headerValues_ungroup_not_mem (name : String) :
    ∀ m : List (String × List String),
    (∀ k ∈ m.map Prod.fst, asciiLower k = k) →
    name ∉ m.map Prod.fst →
    headerValues name (ungroupHeaders m) = [] := by
  intro m
  induction m with
  | nil =>
    intro _ _
    rfl
  | cons hd tl ih =>
    obtain ⟨k, vs⟩ := hd
    intro hlow hnot
    simp only [List.map_cons, List.mem_cons, not_or] at hnot
    obtain ⟨hne, hnot2⟩ := hnot
    have hk : asciiLower k = k := hlow k (by simp)
    rw [ungroupHeaders_cons, headerValues_append, hk, headerValues_block]
    rw [if_neg (fun hh => hne hh.symm)]
    rw [ih (fun k2 hk2 => hlow k2 (by simp [hk2])) hnot2]
    rfl

/-- Ungrouping a grouped map with distinct lowercase keys recovers, per
name, exactly the values stored under that name. -/
theorem headerValues_ungroup (name : String) :
    ∀ m : List (String × List String),
    (m.map Prod.fst).Nodup →
    (∀ k ∈ m.map Prod.fst, asciiLower k = k) →
    headerValues name (ungroupHeaders m) = groupedValues name m := by
  intro m
  induction m with
  | nil =>
    intro _ _
    rfl
  | cons hd tl ih =>
    obtain ⟨k, vs⟩ := hd
    intro hnd hlow
    have hk : asciiLower k = k := hlow k (by simp)
    simp only [List.map_cons, List.nodup_cons] at hnd
    obtain ⟨hknot, hndtl⟩ := hnd
    have hlowtl : ∀ k2 ∈ tl.map Prod.fst, asciiLower k2 = k2 :=
      fun k2 hk2 => hlow k2 (by simp [hk2])
    rw [ungroupHeaders_cons, headerValues_append, hk, headerValues_block]
    by_cases h : k = name
    · subst h
      rw [headerValues_ungroup_not_mem k tl hlowtl hknot]
      simp [groupedValues, lookupAssoc]
    · rw [if_neg h, ih hndtl hlowtl]
      simp [groupedValues, lookupAssoc, h]

/-- Round trip of one header list through grouping and ungrouping keeps,
for every name, the ordered values under that name. -/
theorem headerValues_roundtrip (hs : List (String × String)) (name : String)
    (hlow : ∀ p ∈ hs, asciiLower p.1 = p.1) :
    headerValues name (ungroupHeaders (groupHeaders hs)) = headerValues name hs := by
  have hkeys : ∀ k ∈ (groupHeaders hs).map Prod.fst, asciiLower k = k := by
    intro k hk
    rcases foldl_insert_keys_mem hs [] k hk with h | h
    · simp at h
    · rcases List.mem_map.mp h with ⟨p, hp, hpk⟩
      rw [← hpk]
      exact hlow p hp
  have hnd : ((groupHeaders hs).map Prod.fst).Nodup :=
    foldl_insert_keys_nodup hs [] (by simp)
  rw [headerValues_ungroup name (groupHeaders hs) hnd hkeys]
  unfold groupHeaders
  rw [groupedValues_foldl hs [] name]
  rfl

/-- C8: converting a live request and a live response to stored form and
back preserves method, uri, status and body exactly, and preserves, for
every header name, the ordered list of values under that name (header
names of a parsed message are lowercase, so this is equality up to the
grouping of equal-named headers). -/
theorem stored_roundtrip (req : HttpRequest) (resp : HttpResponse)
    (hreq : ∀ p ∈ req.headers, asciiLower p.1 = p.1)
    (hresp : ∀ p ∈ resp.headers, asciiLower p.1 = p.1) :
    ((stored_to_request (request_to_stored req)).method = req.method ∧
     (stored_to_request (request_to_stored req)).uri = req.uri ∧
     (stored_to_request (request_to_stored req)).body = req.body ∧
     ∀ name, headerValues name (stored_to_request (request_to_stored req)).headers =
       headerValues name req.headers) ∧
    ((stored_to_response (response_to_stored resp)).status = resp.status ∧
     (stored_to_response (response_to_stored resp)).body = resp.body ∧
     ∀ name, headerValues name (stored_to_response (response_to_stored resp)).headers =
       headerValues name resp.headers) := by
  refine ⟨⟨rfl, rfl, rfl, ?_⟩, rfl, rfl, ?_⟩
  · intro name
    exact headerValues_roundtrip req.headers name hreq
  · intro name
    exact headerValues_roundtrip resp.headers name hresp

/-- Witness for C8 at a request with a repeated header name. -/
theorem stored_roundtrip_witness :
    (∀ p ∈ c8Req.headers, asciiLower p.1 = p.1) ∧
    headerValues "accept" (stored_to_request (request_to_stored c8Req)).headers =
      headerValues "accept" c8Req.headers :=
  ⟨by decide,
   (stored_roundtrip c8Req c8Resp (by decide) (by decide)).1.2.2.2 "accept"⟩

end Translucent
